import Mathlib

/-!
Shallow embedding of the scoring and EER-estimation logic of
`gmm_ml_synthetic_speech_detection.ipynb` (spoofed-speech detection via
GMM-ML log-likelihood-ratio scoring), together with theorems settling the
specification claims about it.

The notebook logic embedded here:
* the label map `label_2_class = {'human': 1, 'spoof': 0}` and the ground
  truth column `z = int(source == 'human')`;
* the scoring loop `llr_gmm_score[k] = gmm_nat(mfcc) - gmm_synt(mfcc)`,
  `z_gmm[k] = int(llr_gmm_score[k] > 0)` (with `thr = .5` assigned in scope
  before the loop but never read by the loop body);
* the EER computation cell
    `spoofed = pz[np.array(ground_truth.z)==1]`
    `humans  = pz[np.array(ground_truth.z)==0]`
    `fnr = 100*(humans>thr).sum()/len(humans)`
    `fpr = 100*(spoofed<=thr).sum()/len(spoofed)`
  printing `EER = (fnr+fpr)/2` when `|fnr - fpr| < .25` and `EER ~ ...`
  otherwise;
* the metric line `roc_auc_score(ground_truth.z, ground_truth.z_gmm)`
  (whose implementation lives in the external sklearn library and is
  modelled from the spec's contract).

Real numbers are modelled by `ℚ`: all the arithmetic involved (counts,
divisions, comparisons) is exact.  numpy's true division, whose
zero-denominator case yields a non-finite float (here always `0/0 = NaN`,
since a zero denominator is an empty-class count), is modelled by
`Option ℚ` with `none` for the non-finite outcome.  Everything is a pure
function, as in the notebook's straight-line cells.
-/

set_option linter.unusedVariables false

namespace SpoofDetect

/-- A feature matrix: the ordered list of cepstral frame vectors of one
utterance (`mfcc = cepstrum(vad_data)` in the notebook). -/
abbrev FeatureMatrix : Type := List (List ℚ)

/-- A trained density model, kept opaque exactly as the notebook uses it: a
callable returning the log-likelihood of a feature matrix (`gmm_nat(mfcc)`,
`gmm_synt(mfcc)`). -/
abbrev DensityModel : Type := FeatureMatrix → ℚ

/-- Cell 3: `label_2_class = {'human': 1, 'spoof': 0}`. -/
def label_2_class (source : String) : ℕ :=
  if source == "human" then 1 else 0

/-- One scored utterance: its LLR score and its ground-truth `source`
column value (`'human'` or `'spoof'`). -/
structure Sample where
  score : ℚ
  source : String
deriving DecidableEq

/-- Cell 22: `ground_truth['z'] = ground_truth.source.map(lambda x: int(x=='human'))`. -/
def zOf (s : Sample) : ℕ := if s.source == "human" then 1 else 0

/-- The ScoreComputer body exactly as the notebook computes it per sample:
`gmm_nat(mfcc) - gmm_synt(mfcc)`.  A pure function of its arguments: the
models and features are consumed read-only, so there are no side effects
to speak of in the embedding. -/
def score (natural synthetic : DensityModel) (features : FeatureMatrix) : ℚ :=
  natural features - synthetic features

/-- Output of the scoring loop of cell 22: the per-sample LLR score array
and binary prediction array. -/
structure ScoringOut where
  llr_gmm_score : List ℚ
  z_gmm : List ℕ
deriving DecidableEq

/-- The scoring loop of cell 22.  `thr` is the variable assigned `.5`
before the loop; it is in scope but the loop body never reads it:
`llr_gmm_score[k] = gmm_nat(mfcc) - gmm_synt(mfcc)` and
`z_gmm[k] = int(llr_gmm_score[k] > 0)`. -/
def scoringLoop (thr : ℚ) (gmm_nat gmm_synt : DensityModel)
    (mfccs : List FeatureMatrix) : ScoringOut :=
  { llr_gmm_score := mfccs.map (fun mfcc => gmm_nat mfcc - gmm_synt mfcc)
    z_gmm := mfccs.map (fun mfcc =>
      if 0 < gmm_nat mfcc - gmm_synt mfcc then 1 else 0) }

/-- numpy true division.  A zero denominator yields a non-finite float —
in this notebook always `0/0 = NaN`, because a zero denominator only ever
arises as the length of an empty class selection, which forces a zero
count in the numerator.  The non-finite outcome is modelled as `none`. -/
def npDiv (a b : ℚ) : Option ℚ :=
  if b = 0 then none else some (a / b)

/-- The pair of rates the EER computation cell produces (the names are the
notebook's variable names). -/
structure Rates where
  fnr : ℚ
  fpr : ℚ
deriving DecidableEq

/-- Cell 24: `humans = pz[np.array(ground_truth.z)==0]` — the scores of
the samples whose `z` column is 0.  (Note: `z = int(source=='human')`, so
this selection actually contains the spoof-labeled samples.) -/
def humans (scores : List Sample) : List ℚ :=
  (scores.filter (fun s => zOf s == 0)).map Sample.score

/-- Cell 24: `spoofed = pz[np.array(ground_truth.z)==1]` — the scores of
the samples whose `z` column is 1 (actually the human-labeled samples). -/
def spoofed (scores : List Sample) : List ℚ :=
  (scores.filter (fun s => zOf s == 1)).map Sample.score

/-- The EER computation cell (cell 24) at a given threshold:
`fnr = 100*(humans>thr).sum()/len(humans)` and
`fpr = 100*(spoofed<=thr).sum()/len(spoofed)`.
`none` models the NaN that numpy's division produces when a selection is
empty; there is no emptiness guard in the cell. -/
def estimate (scores : List Sample) (thr : ℚ) : Option Rates :=
  (npDiv (100 * ((humans scores).countP (fun x => decide (thr < x)) : ℚ))
      ((humans scores).length : ℚ)).bind fun fnr =>
    (npDiv (100 * ((spoofed scores).countP (fun x => decide (x ≤ thr)) : ℚ))
        ((spoofed scores).length : ℚ)).map fun fpr => ⟨fnr, fpr⟩

/-- The `fnr` value of cell 24 as a plain rational (meaningful whenever the
`humans` selection is nonempty). -/
def fnrAt (scores : List Sample) (t : ℚ) : ℚ :=
  100 * ((humans scores).countP (fun x => decide (t < x)) : ℚ)
    / ((humans scores).length : ℚ)

/-- The `fpr` value of cell 24 as a plain rational (meaningful whenever the
`spoofed` selection is nonempty). -/
def fprAt (scores : List Sample) (t : ℚ) : ℚ :=
  100 * ((spoofed scores).countP (fun x => decide (x ≤ t)) : ℚ)
    / ((spoofed scores).length : ℚ)

/-- The quantity `|FNR - FPR|` that cell 24 compares against the `.25`
tolerance to decide whether to print `EER =` or `EER ~`. -/
def gapAt (scores : List Sample) (t : ℚ) : ℚ :=
  |fnrAt scores t - fprAt scores t|

/-- FNR as the spec words it: 100 times the fraction of human-labeled
samples (ground truth `source == 'human'`) whose score is at most the
threshold.  Stated from the spec sentence, for comparison with what the
code returns. -/
def spec_fnr (scores : List Sample) (t : ℚ) : ℚ :=
  let h := (scores.filter (fun s => s.source == "human")).map Sample.score
  100 * (h.countP (fun x => decide (x ≤ t)) : ℚ) / (h.length : ℚ)

/-- FPR as the spec words it: 100 times the fraction of spoof-labeled
samples whose score exceeds the threshold. -/
def spec_fpr (scores : List Sample) (t : ℚ) : ℚ :=
  let sp := (scores.filter (fun s => s.source == "spoof")).map Sample.score
  100 * (sp.countP (fun x => decide (t < x)) : ℚ) / (sp.length : ℚ)

/-- The error vocabulary of the spec's error-handling design. -/
inductive SpecError where
  | EmptyClassError
  | InvalidInputError
deriving DecidableEq

/-- Modelled from the spec: the `estimate` contract with its explicit
empty-class guard — "Fails with `EmptyClassError` if either class has zero
members (division by zero avoided by explicit guard, not by propagating
NaN)".  The notebook cell contains no such guard; this definition exists
to contrast the spec's claimed behavior with the code's. -/
def estimate_spec (scores : List Sample) (thr : ℚ) : Except SpecError Rates :=
  if (scores.filter (fun s => s.source == "human")) = []
      ∨ (scores.filter (fun s => s.source == "spoof")) = [] then
    Except.error SpecError.EmptyClassError
  else
    Except.ok ⟨spec_fnr scores thr, spec_fpr scores thr⟩

/-- Modelled from the spec: the ScoreComputer contract with its claimed
input validation — "Fails with `InvalidInputError` if the feature matrix
is empty or dimension mismatches the models' expected dimensionality"
(`dim` standing for the models' expected vector width, `n_ceps = 60` in
the notebook).  The notebook computes `gmm_nat(mfcc)-gmm_synt(mfcc)` with
no validation of its own; this definition exists to contrast the spec's
claimed behavior with the code's. -/
def score_spec (dim : ℕ) (natural synthetic : DensityModel)
    (features : FeatureMatrix) : Except SpecError ℚ :=
  if features = [] ∨ ¬ (∀ v ∈ features, v.length = dim) then
    Except.error SpecError.InvalidInputError
  else
    Except.ok (natural features - synthetic features)

/-- Result record of the spec's `find_eer` contract. -/
structure EERResult where
  eer_estimate : ℚ
  threshold_used : ℚ
  converged : Bool
deriving DecidableEq

/-- Modelled from the spec: `find_eer(scores, search_range, tolerance)`.
The notebook has no automated search — the markdown above cell 24 says to
"adjust the threshold thr" by hand and rerun the cell; the spec commits to
a sweep over candidate thresholds minimizing `|fnr(t) - fpr(t)|`, keeping
`eer_estimate = (fnr+fpr)/2` at the best threshold and setting
`converged` when the best gap is below `tolerance` (`.25` in the cell's
printed check).  The per-threshold quantities are the cell's own
`fnrAt`/`fprAt`/`gapAt`. -/
def find_eer (scores : List Sample) (search_range : List ℚ) (tolerance : ℚ) :
    Option EERResult :=
  match search_range with
  | [] => none
  | t0 :: ts =>
    let best := ts.foldl
      (fun b t => if gapAt scores t < gapAt scores b then t else b) t0
    some ⟨(fnrAt scores best + fprAt scores best) / 2, best,
      decide (gapAt scores best < tolerance)⟩

/-- One positive/negative pair's contribution to a rank-based AUC: 1 when
the positive outranks the negative, 1/2 on a tie. -/
def pairScore (p n : ℚ) : ℚ :=
  if n < p then 1 else if p = n then 1 / 2 else 0

/-- Modelled from the spec: `sklearn.metrics.roc_auc_score` (implemented
in the external sklearn library) — "standard rank-based ROC-AUC over the
two label classes": the tie-averaged probability that a positive-class
value outranks a negative-class one. -/
def rank_auc (pos neg : List ℚ) : ℚ :=
  ((pos.map (fun p => (neg.map (fun n => pairScore p n)).sum)).sum)
    / ((pos.length : ℚ) * (neg.length : ℚ))

/-- The per-sample value the notebook feeds to `roc_auc_score`:
`z_gmm = int(llr_gmm_score > 0)`, the binary prediction — not the LLR
score itself. -/
def z_gmm_of (s : Sample) : ℚ := if 0 < s.score then 1 else 0

/-- The notebook's ROC-AUC line,
`roc_auc_score(ground_truth.z, ground_truth.z_gmm)`: positives are the
samples with `z == 1`, and the ranked value is the binary prediction
`z_gmm`. -/
def roc_auc_code (scores : List Sample) : ℚ :=
  rank_auc ((scores.filter (fun s => zOf s == 1)).map z_gmm_of)
           ((scores.filter (fun s => zOf s == 0)).map z_gmm_of)

/-- C1: for every pair of density models, the ScoreComputer value is the
natural model's log-likelihood minus the synthetic model's, and every
entry of the scoring loop's LLR array is exactly that value on the
corresponding feature matrix.  Both are pure functions of their arguments
(the embedding is purely functional, so the models and features are left
untouched). -/
theorem C1_score_is_loglikelihood_difference
    (gmm_nat gmm_synt : DensityModel) :
    (∀ F : FeatureMatrix, score gmm_nat gmm_synt F = gmm_nat F - gmm_synt F)
    ∧ ∀ (thr : ℚ) (mfccs : List FeatureMatrix) (k : ℕ),
        (scoringLoop thr gmm_nat gmm_synt mfccs).llr_gmm_score[k]? =
          (mfccs[k]?).map (score gmm_nat gmm_synt) := by
  refine ⟨fun F => rfl, fun thr mfccs k => ?_⟩
  simp only [scoringLoop, List.getElem?_map]
  rfl

/-- C6: the LLR score is antisymmetric in the two density models. -/
theorem C6_score_antisymmetric (A B : DensityModel) (F : FeatureMatrix) :
    score A B F = - score B A F := by
  simp [score]

/-- C10: every stored binary prediction `z_gmm[k]` is 1 exactly when the
stored LLR score is strictly positive and 0 otherwise, and the value of
the `thr` variable assigned before the loop has no effect on the
prediction array. -/
theorem C10_predictions_ignore_thr
    (thr thr' : ℚ) (gmm_nat gmm_synt : DensityModel)
    (mfccs : List FeatureMatrix) (k : ℕ) :
    ((scoringLoop thr gmm_nat gmm_synt mfccs).z_gmm[k]? =
        ((scoringLoop thr gmm_nat gmm_synt mfccs).llr_gmm_score[k]?).map
          (fun llr => if 0 < llr then 1 else 0))
    ∧ (scoringLoop thr' gmm_nat gmm_synt mfccs).z_gmm =
        (scoringLoop thr gmm_nat gmm_synt mfccs).z_gmm := by
  refine ⟨?_, rfl⟩
  simp only [scoringLoop, List.getElem?_map, Option.map_map]
  rfl

/-- C2 counterexample: on the score set with one human-labeled sample of
score 1 and one spoof-labeled sample of score 1, at threshold 0, the cell
returns `fnr = 100` — but 100 times the fraction of human-labeled samples
with score at most 0 is 0.  (The cell's `fnr` is in fact the spec's
`fpr`, and vice versa: the `z==0` selection it calls `humans` holds the
spoof-labeled samples, because `z = int(source=='human')`.) -/
theorem C2_counterexample :
    estimate [⟨1, "human"⟩, ⟨1, "spoof"⟩] 0 = some ⟨100, 0⟩
    ∧ spec_fnr [⟨1, "human"⟩, ⟨1, "spoof"⟩] 0 = 0
    ∧ spec_fpr [⟨1, "human"⟩, ⟨1, "spoof"⟩] 0 = 100
    ∧ (100 : ℚ) ≠ 0 := by
  refine ⟨?_, ?_, ?_, by norm_num⟩ <;>
    simp [estimate, npDiv, zOf, humans, spoofed, spec_fnr, spec_fpr,
      List.filter_cons, List.countP_cons]

/-- C4 counterexample: on a score set whose spoof-labeled class is empty
(hence the cell's `humans = pz[z==0]` selection is empty), the cell's
division produces NaN (modelled `none`) — it does not fail with
`EmptyClassError` through a guard, which is what the spec-modelled
`estimate_spec` would do. -/
theorem C4_counterexample :
    estimate [⟨1, "human"⟩] 0 = none
    ∧ estimate_spec [⟨1, "human"⟩] 0
        = Except.error SpecError.EmptyClassError := by
  constructor <;>
    simp [estimate, estimate_spec, npDiv, zOf, humans, spoofed,
      List.filter_cons, List.countP_cons]

/-- The cell's result is NaN (modelled `none`) exactly when one of its
two class selections is empty. -/
lemma estimate_none_iff (scores : List Sample) (t : ℚ) :
    estimate scores t = none
      ↔ humans scores = [] ∨ spoofed scores = [] := by
  by_cases h1 : humans scores = [] <;> by_cases h2 : spoofed scores = [] <;>
    simp [estimate, npDiv, List.length_eq_zero, h1, h2]

/-- C4 amended: the EER cell has no empty-class guard and no
`EmptyClassError`; its result is NaN (modelled `none`) exactly when one of
its two class selections is empty, because the empty selection makes the
numpy division `0/0`. -/
theorem C4_amended_nan_iff_empty_class (scores : List Sample) (t : ℚ) :
    estimate scores t = none
      ↔ humans scores = [] ∨ spoofed scores = [] :=
  estimate_none_iff scores t

/-- C8 counterexample: on the spec's own example score set
(humans 0.6 and 0.4, spoofs -0.3 and 0.1) at threshold 0 the cell returns
`fnr = 50` and `fpr = 0`, not `fnr = 0` and `fpr = 50` as claimed: the
cell's two rates are name-swapped. -/
theorem C8_counterexample :
    estimate [⟨6/10, "human"⟩, ⟨4/10, "human"⟩, ⟨-3/10, "spoof"⟩, ⟨1/10, "spoof"⟩] 0
        = some ⟨50, 0⟩
    ∧ (⟨50, 0⟩ : Rates) ≠ ⟨0, 50⟩ := by
  constructor
  · simp [estimate, npDiv, zOf, humans, spoofed,
      List.filter_cons, List.countP_cons]
    norm_num
  · decide

/-- When neither class selection is empty, the cell's result is the pair
of plain rational rates. -/
lemma estimate_of_ne_nil (scores : List Sample) (t : ℚ)
    (h1 : humans scores ≠ []) (h2 : spoofed scores ≠ []) :
    estimate scores t = some ⟨fnrAt scores t, fprAt scores t⟩ := by
  have e1 : ((humans scores).length : ℚ) ≠ 0 := by
    simpa [List.length_eq_zero] using h1
  have e2 : ((spoofed scores).length : ℚ) ≠ 0 := by
    simpa [List.length_eq_zero] using h2
  simp [estimate, npDiv, fnrAt, fprAt, e1, e2]

/-- Inversion for a successful run of the cell: both selections were
nonempty and the result holds the two division values. -/
lemma estimate_eq_some (scores : List Sample) (t : ℚ) (r : Rates)
    (h : estimate scores t = some r) :
    humans scores ≠ [] ∧ spoofed scores ≠ []
      ∧ r = ⟨fnrAt scores t, fprAt scores t⟩ := by
  by_cases h1 : humans scores = []
  · rw [estimate_none_iff scores t |>.mpr (Or.inl h1)] at h
    exact absurd h (by simp)
  · by_cases h2 : spoofed scores = []
    · rw [estimate_none_iff scores t |>.mpr (Or.inr h2)] at h
      exact absurd h (by simp)
    · rw [estimate_of_ne_nil scores t h1 h2] at h
      exact ⟨h1, h2, (Option.some_injective _ h).symm⟩

/-- C8 amended: on the spec's example score set at threshold 0 the cell
returns `fnr = 50` and `fpr = 0` — the same two numbers the claim lists,
carried by the swapped variables (the misclassified sample s2 with score
0.1 shows up in the cell's `fnr`). -/
theorem C8_amended_example_rates :
    estimate [⟨6/10, "human"⟩, ⟨4/10, "human"⟩, ⟨-3/10, "spoof"⟩, ⟨1/10, "spoof"⟩] 0
      = some ⟨50, 0⟩ := by
  simp [estimate, npDiv, zOf, humans, spoofed,
    List.filter_cons, List.countP_cons]
  norm_num

/-- With every label either `human` or `spoof`, the cell's `z==0`
selection is exactly the spoof-labeled score list. -/
lemma humans_eq_spoof_scores (scores : List Sample)
    (hwf : ∀ s ∈ scores, s.source = "human" ∨ s.source = "spoof") :
    humans scores
      = (scores.filter (fun s => s.source == "spoof")).map Sample.score := by
  unfold humans
  congr 1
  apply List.filter_congr
  intro s hs
  rcases hwf s hs with h | h <;> simp [zOf, h]

/-- With every label either `human` or `spoof`, the cell's `z==1`
selection is exactly the human-labeled score list. -/
lemma spoofed_eq_human_scores (scores : List Sample)
    (hwf : ∀ s ∈ scores, s.source = "human" ∨ s.source = "spoof") :
    spoofed scores
      = (scores.filter (fun s => s.source == "human")).map Sample.score := by
  unfold spoofed
  congr 1
  apply List.filter_congr
  intro s hs
  rcases hwf s hs with h | h <;> simp [zOf, h]

/-- C2 amended: for a score set with every label in {human, spoof} and
both classes nonempty, the cell returns the two rates of the claim with
the names interchanged: its `fnr` is 100 times the fraction of
spoof-labeled samples with score above the threshold, and its `fpr` is
100 times the fraction of human-labeled samples with score at most the
threshold.  (The code's label convention is `human=1, spoof=0` — cell 3's
`label_2_class` — and its `z==0`/`z==1` selections are therefore
name-swapped.) -/
theorem C2_amended_estimate_swaps_rates (scores : List Sample) (t : ℚ)
    (hwf : ∀ s ∈ scores, s.source = "human" ∨ s.source = "spoof")
    (hh : ∃ s ∈ scores, s.source = "human")
    (hs : ∃ s ∈ scores, s.source = "spoof") :
    estimate scores t = some ⟨spec_fpr scores t, spec_fnr scores t⟩ := by
  obtain ⟨sh, hsh, hsrch⟩ := hh
  obtain ⟨ss, hss, hsrcs⟩ := hs
  have hhum := humans_eq_spoof_scores scores hwf
  have hspo := spoofed_eq_human_scores scores hwf
  have hne1 : humans scores ≠ [] := by
    rw [hhum]
    have : ss ∈ scores.filter (fun s => s.source == "spoof") :=
      List.mem_filter.mpr ⟨hss, by simp [hsrcs]⟩
    intro h0
    rw [List.map_eq_nil_iff] at h0
    rw [h0] at this
    exact absurd this (List.not_mem_nil _)
  have hne2 : spoofed scores ≠ [] := by
    rw [hspo]
    have : sh ∈ scores.filter (fun s => s.source == "human") :=
      List.mem_filter.mpr ⟨hsh, by simp [hsrch]⟩
    intro h0
    rw [List.map_eq_nil_iff] at h0
    rw [h0] at this
    exact absurd this (List.not_mem_nil _)
  rw [estimate_of_ne_nil scores t hne1 hne2]
  simp only [fnrAt, fprAt, spec_fnr, spec_fpr, hhum, hspo]

/-- C2 amended, witness: the swapped-rate description evaluated on a
concrete two-sample score set. -/
theorem C2_amended_estimate_swaps_rates_witness :
    estimate [⟨1, "human"⟩, ⟨-1, "spoof"⟩] 0
      = some ⟨spec_fpr [⟨1, "human"⟩, ⟨-1, "spoof"⟩] 0,
              spec_fnr [⟨1, "human"⟩, ⟨-1, "spoof"⟩] 0⟩ :=
  C2_amended_estimate_swaps_rates [⟨1, "human"⟩, ⟨-1, "spoof"⟩] 0
    (by intro s hs; simp only [List.mem_cons, List.not_mem_nil, or_false] at hs
        rcases hs with rfl | rfl <;> simp)
    (by exact ⟨⟨1, "human"⟩, by simp, rfl⟩)
    (by exact ⟨⟨-1, "spoof"⟩, by simp, rfl⟩)

/-- C7 counterexample: with one human-labeled and one spoof-labeled
sample both scoring 1, raising the threshold from 0 to 2 takes the cell's
`fnr` from 100 down to 0 and its `fpr` from 0 up to 100 — the opposite of
the claimed directions. -/
theorem C7_counterexample :
    (0 : ℚ) ≤ 2
    ∧ estimate [⟨1, "human"⟩, ⟨1, "spoof"⟩] 0 = some ⟨100, 0⟩
    ∧ estimate [⟨1, "human"⟩, ⟨1, "spoof"⟩] 2 = some ⟨0, 100⟩
    ∧ ¬ ((100 : ℚ) ≤ 0) := by
  refine ⟨by norm_num, ?_, ?_, by norm_num⟩ <;>
    simp [estimate, npDiv, zOf, humans, spoofed,
      List.filter_cons, List.countP_cons]

/-- C7 amended: the cell's rates are each monotone in the threshold, in
the directions opposite to the claim: raising the threshold cannot
increase its `fnr` and cannot decrease its `fpr` (its `fnr` counts scores
above the threshold and its `fpr` scores at most the threshold). -/
theorem C7_amended_fnr_antitone_fpr_monotone
    (scores : List Sample) (t1 t2 : ℚ) (r1 r2 : Rates)
    (h12 : t1 ≤ t2)
    (h1 : estimate scores t1 = some r1)
    (h2 : estimate scores t2 = some r2) :
    r2.fnr ≤ r1.fnr ∧ r1.fpr ≤ r2.fpr := by
  obtain ⟨hne1, hne2, hr1⟩ := estimate_eq_some scores t1 r1 h1
  obtain ⟨-, -, hr2⟩ := estimate_eq_some scores t2 r2 h2
  subst hr1; subst hr2
  have hlen1 : (0 : ℚ) < ((humans scores).length : ℚ) := by
    exact_mod_cast List.length_pos.mpr hne1
  have hlen2 : (0 : ℚ) < ((spoofed scores).length : ℚ) := by
    exact_mod_cast List.length_pos.mpr hne2
  constructor
  · have hc : (humans scores).countP (fun x => decide (t2 < x))
        ≤ (humans scores).countP (fun x => decide (t1 < x)) := by
      apply List.countP_mono_left
      intro x hx
      simpa using fun h => lt_of_le_of_lt h12 h
    unfold fnrAt
    rw [div_le_div_iff_of_pos_right hlen1]
    have : ((humans scores).countP (fun x => decide (t2 < x)) : ℚ)
        ≤ ((humans scores).countP (fun x => decide (t1 < x)) : ℚ) := by
      exact_mod_cast hc
    linarith
  · have hc : (spoofed scores).countP (fun x => decide (x ≤ t1))
        ≤ (spoofed scores).countP (fun x => decide (x ≤ t2)) := by
      apply List.countP_mono_left
      intro x hx
      simpa using fun h => le_trans h h12
    unfold fprAt
    rw [div_le_div_iff_of_pos_right hlen2]
    have : ((spoofed scores).countP (fun x => decide (x ≤ t1)) : ℚ)
        ≤ ((spoofed scores).countP (fun x => decide (x ≤ t2)) : ℚ) := by
      exact_mod_cast hc
    linarith

/-- C7 amended, witness: the reversed monotonicity evaluated on the
concrete two-sample score set at thresholds 0 and 2. -/
theorem C7_amended_witness :
    ((⟨0, 100⟩ : Rates).fnr ≤ (⟨100, 0⟩ : Rates).fnr)
    ∧ ((⟨100, 0⟩ : Rates).fpr ≤ (⟨0, 100⟩ : Rates).fpr) :=
  C7_amended_fnr_antitone_fpr_monotone
    [⟨1, "human"⟩, ⟨1, "spoof"⟩] 0 2 ⟨100, 0⟩ ⟨0, 100⟩
    (by norm_num)
    (by simp [estimate, npDiv, zOf, humans, spoofed,
      List.filter_cons, List.countP_cons])
    (by simp [estimate, npDiv, zOf, humans, spoofed,
      List.filter_cons, List.countP_cons])

/-- The running-best fold of the threshold sweep lands on one of the
candidates. -/
lemma foldl_best_mem (g : ℚ → ℚ) (ts : List ℚ) (t0 : ℚ) :
    ts.foldl (fun b t => if g t < g b then t else b) t0 ∈ t0 :: ts := by
  induction ts generalizing t0 with
  | nil => simp
  | cons t1 ts ih =>
    rw [List.foldl_cons]
    rcases List.mem_cons.mp (ih (if g t1 < g t0 then t1 else t0)) with h | h
    · rw [h]
      by_cases hg : g t1 < g t0 <;> simp [hg]
    · simp [List.mem_cons, h]

/-- The running-best fold of the threshold sweep minimizes `g` over the
candidates. -/
lemma foldl_best_le (g : ℚ → ℚ) (ts : List ℚ) (t0 : ℚ) :
    ∀ t ∈ t0 :: ts,
      g (ts.foldl (fun b t => if g t < g b then t else b) t0) ≤ g t := by
  induction ts generalizing t0 with
  | nil =>
    intro t ht
    rw [List.mem_singleton] at ht
    subst ht
    simp
  | cons t1 ts ih =>
    intro t ht
    rw [List.foldl_cons]
    have hle0 : g (if g t1 < g t0 then t1 else t0) ≤ g t0 := by
      by_cases hg : g t1 < g t0 <;> simp [hg]
      exact le_of_lt hg
    have hle1 : g (if g t1 < g t0 then t1 else t0) ≤ g t1 := by
      by_cases hg : g t1 < g t0 <;> simp [hg]
      exact le_of_not_lt hg
    have hbest := ih (if g t1 < g t0 then t1 else t0)
    have hself := hbest _ (List.mem_cons_self _ _)
    rcases List.mem_cons.mp ht with rfl | ht'
    · exact le_trans hself hle0
    rcases List.mem_cons.mp ht' with rfl | ht''
    · exact le_trans hself hle1
    · exact hbest t (List.mem_cons_of_mem _ ht'')

/-- C3: on a nonempty candidate list, the spec-modelled `find_eer` returns
a result whose threshold is one of the candidates and minimizes
`|fnr - fpr|` over them, whose `eer_estimate` is `(fnr+fpr)/2` at that
threshold, and whose `converged` flag is true exactly when the minimal
observed `|fnr - fpr|` — equivalently, some candidate's gap — is below the
tolerance. -/
theorem C3_find_eer_correct (scores : List Sample) (t0 : ℚ) (ts : List ℚ)
    (tol : ℚ) :
    ∃ r : EERResult,
      find_eer scores (t0 :: ts) tol = some r
      ∧ r.threshold_used ∈ t0 :: ts
      ∧ (∀ t ∈ t0 :: ts, gapAt scores r.threshold_used ≤ gapAt scores t)
      ∧ r.eer_estimate
          = (fnrAt scores r.threshold_used + fprAt scores r.threshold_used) / 2
      ∧ (r.converged = true ↔ ∃ t ∈ t0 :: ts, gapAt scores t < tol) := by
  refine ⟨_, rfl, foldl_best_mem (gapAt scores) ts t0,
    foldl_best_le (gapAt scores) ts t0, rfl, ?_⟩
  simp only [decide_eq_true_eq]
  constructor
  · intro h
    exact ⟨_, foldl_best_mem (gapAt scores) ts t0, h⟩
  · rintro ⟨t, ht, hlt⟩
    exact lt_of_le_of_lt (foldl_best_le (gapAt scores) ts t0 t ht) hlt

/-- A list mapped to a constant sums to the constant times the length. -/
lemma sum_map_const (l : List ℚ) (f : ℚ → ℚ) (c : ℚ)
    (h : ∀ x ∈ l, f x = c) :
    (l.map f).sum = c * l.length := by
  induction l with
  | nil => simp
  | cons a l ih =>
    simp only [List.map_cons, List.sum_cons, List.length_cons]
    rw [h a (List.mem_cons_self a l),
      ih (fun x hx => h x (List.mem_cons_of_mem a hx))]
    push_cast
    ring

/-- C5 counterexample: on the score set with one human-labeled sample of
score 2 and one spoof-labeled sample of score 1, every human score
strictly exceeds every spoof score (2 > 1), yet the notebook's ROC-AUC
line yields 1/2, not 1 — because it ranks the binary predictions
`z_gmm = int(score > 0)` (both 1 here), not the LLR scores. -/
theorem C5_counterexample :
    (1 : ℚ) < 2
    ∧ roc_auc_code [⟨2, "human"⟩, ⟨1, "spoof"⟩] = 1 / 2
    ∧ (1 / 2 : ℚ) ≠ 1 := by
  refine ⟨by norm_num, ?_, by norm_num⟩
  simp [roc_auc_code, rank_auc, pairScore, z_gmm_of, zOf,
    List.filter_cons]

/-- C5 amended: the notebook's ROC-AUC is computed on the binary
predictions `z_gmm`; it equals 1 precisely in the situation where
threshold 0 separates the classes — every human-labeled (`z==1`) score
positive and every spoof-labeled (`z==0`) score nonpositive, both classes
nonempty. -/
theorem C5_amended_auc_one_when_zero_separates (scores : List Sample)
    (hh : ∃ s ∈ scores, zOf s = 1)
    (hs : ∃ s ∈ scores, zOf s = 0)
    (hpos : ∀ s ∈ scores, zOf s = 1 → 0 < s.score)
    (hneg : ∀ s ∈ scores, zOf s = 0 → s.score ≤ 0) :
    roc_auc_code scores = 1 := by
  unfold roc_auc_code rank_auc
  have hp1 : ∀ p ∈ (scores.filter (fun s => zOf s == 1)).map z_gmm_of,
      p = 1 := by
    intro p hp
    obtain ⟨s, hsmem, rfl⟩ := List.mem_map.mp hp
    obtain ⟨hsc, hz⟩ := List.mem_filter.mp hsmem
    have hz' : zOf s = 1 := by simpa using hz
    simp [z_gmm_of, hpos s hsc hz']
  have hn0 : ∀ n ∈ (scores.filter (fun s => zOf s == 0)).map z_gmm_of,
      n = 0 := by
    intro n hn
    obtain ⟨s, hsmem, rfl⟩ := List.mem_map.mp hn
    obtain ⟨hsc, hz⟩ := List.mem_filter.mp hsmem
    have hz' : zOf s = 0 := by simpa using hz
    simp [z_gmm_of, not_lt.mpr (hneg s hsc hz')]
  have hinner : ∀ p ∈ (scores.filter (fun s => zOf s == 1)).map z_gmm_of,
      (((scores.filter (fun s => zOf s == 0)).map z_gmm_of).map
          (fun n => pairScore p n)).sum
        = (((scores.filter (fun s => zOf s == 0)).map z_gmm_of).length : ℚ) := by
    intro p hp
    rw [sum_map_const _ _ 1, one_mul]
    intro n hn
    rw [hp1 p hp, hn0 n hn]
    norm_num [pairScore]
  rw [sum_map_const _ _ _ hinner]
  have hlp : (((scores.filter (fun s => zOf s == 1)).map z_gmm_of).length : ℚ)
      ≠ 0 := by
    obtain ⟨s, hsmem, hz⟩ := hh
    have : z_gmm_of s ∈ (scores.filter (fun s => zOf s == 1)).map z_gmm_of :=
      List.mem_map.mpr ⟨s, List.mem_filter.mpr ⟨hsmem, by simp [hz]⟩, rfl⟩
    simpa [List.length_eq_zero] using List.ne_nil_of_mem this
  have hln : (((scores.filter (fun s => zOf s == 0)).map z_gmm_of).length : ℚ)
      ≠ 0 := by
    obtain ⟨s, hsmem, hz⟩ := hs
    have : z_gmm_of s ∈ (scores.filter (fun s => zOf s == 0)).map z_gmm_of :=
      List.mem_map.mpr ⟨s, List.mem_filter.mpr ⟨hsmem, by simp [hz]⟩, rfl⟩
    simpa [List.length_eq_zero] using List.ne_nil_of_mem this
  rw [mul_comm]
  exact div_self (mul_ne_zero hlp hln)

/-- C5 amended, witness: the prediction-ranked AUC on a concrete score
set separated by threshold 0. -/
theorem C5_amended_witness :
    roc_auc_code [⟨2, "human"⟩, ⟨-1, "spoof"⟩] = 1 :=
  C5_amended_auc_one_when_zero_separates [⟨2, "human"⟩, ⟨-1, "spoof"⟩]
    ⟨⟨2, "human"⟩, by simp, by simp [zOf]⟩
    ⟨⟨-1, "spoof"⟩, by simp, by simp [zOf]⟩
    (by intro s hs h
        simp only [List.mem_cons, List.not_mem_nil, or_false] at hs
        rcases hs with rfl | rfl <;> simp_all [zOf])
    (by intro s hs h
        simp only [List.mem_cons, List.not_mem_nil, or_false] at hs
        rcases hs with rfl | rfl <;> simp_all [zOf])

/-- C9 counterexample: the scoring line performs no input validation — on
the empty feature matrix it simply returns the difference of the two
models' log-likelihood values (here 3 - 1 = 2), whereas the spec-modelled
guarded scorer would fail with `InvalidInputError`. -/
theorem C9_counterexample :
    score (fun x => (3 : ℚ)) (fun x => (1 : ℚ)) [] = 2
    ∧ score_spec 60 (fun x => (3 : ℚ)) (fun x => (1 : ℚ)) []
        = Except.error SpecError.InvalidInputError := by
  constructor
  · norm_num [score]
  · simp [score_spec]

/-- C9 amended: the repository's scoring code validates nothing and has
no failure path: for every pair of models and every feature matrix,
including the empty one, it returns the plain difference of
log-likelihoods; error behavior for malformed input is left to the
external library's model call. -/
theorem C9_amended_no_validation (natural synthetic : DensityModel)
    (F : FeatureMatrix) :
    score natural synthetic F = natural F - synthetic F
    ∧ score natural synthetic [] = natural [] - synthetic [] :=
  ⟨rfl, rfl⟩

end SpoofDetect
